import Mathlib

/-!
Shallow embedding of the instrumented raw memory allocator in
`tensorflow/core/framework/ev_allocator.cc` (class `EVAllocator`, the
threshold accessors `LargeAllocationWarningBytes` / `TotalAllocationWarningBytes`,
the factory `EVAllocatorFactory` and its nested `EVSubAllocator`).

External collaborators are modelled as explicit parameters:
`port::AlignedMalloc` and `port::MallocExtension_GetAllocatedSize` become
function arguments (oracles), `port::AvailableRam` becomes an integer
argument, the `ev_allocator_collect_stats` flag becomes a configuration
field, and each `LOG(WARNING)` becomes a boolean output flag.
A concrete heap model instantiates the oracles for whole-trace reasoning.
-/

namespace EVAlloc

/-- Pointers handed out by the aligned-malloc primitive, modelled as
natural-number identifiers; `Option Ptr` with `none` for the null pointer. -/
abbrev Ptr := Nat

/-- `static const int kMaxTotalAllocationWarnings = 1;` -/
def kMaxTotalAllocationWarnings : Int := 1

/-- `static const int kMaxSingleAllocationWarnings = 5;` -/
def kMaxSingleAllocationWarnings : Int := 5

/-- `static const double kTotalAllocationWarningThreshold = 0.5;`
(the `double` literal is modelled as the exact rational it is written as). -/
def kTotalAllocationWarningThreshold : Rat := 1 / 2

/-- `static const double kLargeAllocationWarningThreshold = 0.1;`
(the `double` literal is modelled as the exact rational it is written as;
IEEE rounding of `0.1` to the nearest double is abstracted away). -/
def kLargeAllocationWarningThreshold : Rat := 1 / 10

/-- `static_cast<int64>` applied to a floating-point value truncates toward
zero; modelled on exact rationals. -/
def doubleToInt64 (q : Rat) : Int := if q < 0 then ⌈q⌉ else ⌊q⌋

/-- The value computed on first invocation of `LargeAllocationWarningBytes`:
`static_cast<int64>(port::AvailableRam() * kLargeAllocationWarningThreshold)`,
with the result of the external `port::AvailableRam()` passed in as
`availableRam`. -/
def largeAllocationWarningBytesOf (availableRam : Int) : Int :=
  doubleToInt64 ((availableRam : Rat) * kLargeAllocationWarningThreshold)

/-- The value computed on first invocation of `TotalAllocationWarningBytes`:
`static_cast<int64>(port::AvailableRam() * kTotalAllocationWarningThreshold)`. -/
def totalAllocationWarningBytesOf (availableRam : Int) : Int :=
  doubleToInt64 ((availableRam : Rat) * kTotalAllocationWarningThreshold)

/-- One call to a threshold accessor with a C++ function-local `static`
cache (`none` = not yet initialised).  Returns the value returned to the
caller, the cache state after the call, and whether `port::AvailableRam`
was queried during this call. -/
def cachedCall (compute : Int → Int) (availableRam : Int) (cache : Option Int) :
    Int × Option Int × Bool :=
  match cache with
  | some v => (v, some v, false)
  | none => (compute availableRam, some (compute availableRam), true)

/-- `n` successive calls to a cached threshold accessor: the list of values
returned, the final cache state, and the total number of
`port::AvailableRam` queries performed. -/
def cachedCalls (compute : Int → Int) (availableRam : Int) :
    Nat → Option Int → List Int × Option Int × Nat
  | 0, cache => ([], cache, 0)
  | Nat.succ n, cache =>
    let r := cachedCall compute availableRam cache
    let rest := cachedCalls compute availableRam n r.2.1
    (r.1 :: rest.1, rest.2.1, (if r.2.2 then 1 else 0) + rest.2.2)

/-- The `AllocatorStats` aggregate (fields are C++ `int64`). -/
structure AllocatorStats where
  num_allocs : Int
  bytes_in_use : Int
  peak_bytes_in_use : Int
  largest_alloc_size : Int
deriving DecidableEq, Repr

/-- The mutable state of one `EVAllocator` instance: the stats aggregate
guarded by `mu_`, the atomic single-allocation warning counter, and the
locked total-allocation warning counter. -/
structure EVAllocatorState where
  stats : AllocatorStats
  single_allocation_warning_count : Int
  total_allocation_warning_count : Int
deriving DecidableEq, Repr

/-- State of a freshly constructed `EVAllocator` (the constructor zeroes the
warning counters; `AllocatorStats` default-initialises all fields to 0). -/
def EVAllocatorState.init : EVAllocatorState :=
  { stats := ⟨0, 0, 0, 0⟩
    single_allocation_warning_count := 0
    total_allocation_warning_count := 0 }

/-- The process-level environment an `EVAllocator` reads: the
`ev_allocator_collect_stats` flag and the two cached warning thresholds
(nonnegative in any real process, since they are computed from
`port::AvailableRam()` times a positive fraction). -/
structure EVConfig where
  collect_stats : Bool
  largeAllocationWarningBytes : Int
  totalAllocationWarningBytes : Int
deriving DecidableEq, Repr

/-- Result of one `AllocateRaw` call: the allocator state afterwards, the
returned pointer, and whether each kind of `LOG(WARNING)` fired. -/
structure AllocResult where
  state : EVAllocatorState
  ret : Option Ptr
  single_warning : Bool
  total_warning : Bool
deriving DecidableEq, Repr

/-- The condition of the single-allocation warning branch:
`num_bytes > LargeAllocationWarningBytes() &&
 single_allocation_warning_count_ < kMaxSingleAllocationWarnings`. -/
def singleWarningTriggered (cfg : EVConfig) (st : EVAllocatorState)
    (num_bytes : Nat) : Bool :=
  decide (cfg.largeAllocationWarningBytes < (num_bytes : Int)) &&
    decide (st.single_allocation_warning_count < kMaxSingleAllocationWarnings)

/-- The condition of the cumulative-usage warning branch:
`stats_.bytes_in_use > TotalAllocationWarningBytes() &&
 total_allocation_warning_count_ < kMaxTotalAllocationWarnings`,
taking the already-updated `bytes_in_use` and the pre-call counter. -/
def totalWarningTriggered (cfg : EVConfig) (newBytesInUse count : Int) : Bool :=
  decide (cfg.totalAllocationWarningBytes < newBytesInUse) &&
    decide (count < kMaxTotalAllocationWarnings)

/-- The body of the single-allocation warning branch:
`++single_allocation_warning_count_` when the branch is taken. -/
def bumpSingleWarning (st : EVAllocatorState) (warn : Bool) : EVAllocatorState :=
  if warn then
    { st with single_allocation_warning_count :=
        st.single_allocation_warning_count + 1 }
  else st

/-- `EVAllocator::AllocateRaw(alignment, num_bytes)`.
`alignedMalloc num_bytes alignment` models `port::AlignedMalloc`, and
`getAllocatedSize` models `port::MallocExtension_GetAllocatedSize` at the
moment of this call (`none` = null pointer). -/
def EVAllocator.AllocateRaw (cfg : EVConfig)
    (alignedMalloc : Nat → Nat → Option Ptr)
    (getAllocatedSize : Option Ptr → Nat)
    (st : EVAllocatorState) (alignment num_bytes : Nat) : AllocResult :=
  let singleWarn : Bool := singleWarningTriggered cfg st num_bytes
  let st1 := bumpSingleWarning st singleWarn
  let alignment2 := 8
  let p := alignedMalloc num_bytes alignment2
  if cfg.collect_stats then
    let alloc_size := getAllocatedSize p
    let bytes := st1.stats.bytes_in_use + (alloc_size : Int)
    let stats2 : AllocatorStats :=
      { num_allocs := st1.stats.num_allocs + 1
        bytes_in_use := bytes
        peak_bytes_in_use := max st1.stats.peak_bytes_in_use bytes
        largest_alloc_size := max st1.stats.largest_alloc_size (alloc_size : Int) }
    let totalWarn : Bool :=
      totalWarningTriggered cfg stats2.bytes_in_use st1.total_allocation_warning_count
    { state :=
        { stats := stats2
          single_allocation_warning_count := st1.single_allocation_warning_count
          total_allocation_warning_count :=
            if totalWarn then st1.total_allocation_warning_count + 1
            else st1.total_allocation_warning_count }
      ret := p
      single_warning := singleWarn
      total_warning := totalWarn }
  else
    { state := st1, ret := p, single_warning := singleWarn, total_warning := false }

/-- `EVAllocator::DeallocateRaw(ptr)` (the final `port::AlignedFree(ptr)`
affects only the external heap, modelled separately in `World`). -/
def EVAllocator.DeallocateRaw (cfg : EVConfig)
    (getAllocatedSize : Option Ptr → Nat)
    (st : EVAllocatorState) (ptr : Option Ptr) : EVAllocatorState :=
  if cfg.collect_stats then
    let alloc_size := getAllocatedSize ptr
    { st with stats :=
        { st.stats with bytes_in_use := st.stats.bytes_in_use - (alloc_size : Int) } }
  else st

/-- `EVAllocator::GetStats()`: a copy of the stats (wrapped in
`absl::optional`) together with the unchanged allocator state. -/
def EVAllocator.GetStats (st : EVAllocatorState) :
    Option AllocatorStats × EVAllocatorState :=
  (some st.stats, st)

/-- `EVAllocator::ClearStats()`. -/
def EVAllocator.ClearStats (st : EVAllocatorState) : EVAllocatorState :=
  { st with stats :=
      { st.stats with
          num_allocs := 0
          peak_bytes_in_use := st.stats.bytes_in_use
          largest_alloc_size := 0 } }

/-- `EVAllocator::AllocatedSizeSlow(ptr)`: a direct query of the external
size primitive. -/
def EVAllocator.AllocatedSizeSlow (getAllocatedSize : Option Ptr → Nat)
    (ptr : Option Ptr) : Nat :=
  getAllocatedSize ptr

/-- `EVSubAllocator::Alloc(alignment, num_bytes)`: delegates verbatim to the
wrapped allocator's `AllocateRaw`. -/
def EVSubAllocator.Alloc (cfg : EVConfig)
    (alignedMalloc : Nat → Nat → Option Ptr)
    (getAllocatedSize : Option Ptr → Nat)
    (st : EVAllocatorState) (alignment num_bytes : Nat) : AllocResult :=
  EVAllocator.AllocateRaw cfg alignedMalloc getAllocatedSize st alignment num_bytes

/-- `EVSubAllocator::Free(ptr, num_bytes)`: delegates to `DeallocateRaw`,
discarding the `num_bytes` hint. -/
def EVSubAllocator.Free (cfg : EVConfig)
    (getAllocatedSize : Option Ptr → Nat)
    (st : EVAllocatorState) (ptr : Option Ptr) (num_bytes : Nat) : EVAllocatorState :=
  EVAllocator.DeallocateRaw cfg getAllocatedSize st ptr

/-- `EVAllocatorFactory::CreateAllocator()`: a fresh `EVAllocator`. -/
def EVAllocatorFactory.CreateAllocator : EVAllocatorState :=
  EVAllocatorState.init

/-- `EVAllocatorFactory::CreateSubAllocator(numa_node)`: constructs
`new EVSubAllocator(new EVAllocator)`; the state of the freshly constructed
wrapped allocator, for every `numa_node` (the argument is ignored). -/
def EVAllocatorFactory.CreateSubAllocator (numa_node : Int) : EVAllocatorState :=
  EVAllocatorState.init

/-- Two sub-allocators produced by `CreateSubAllocator`: each owns its own
freshly constructed `EVAllocator` (`new EVSubAllocator(new EVAllocator)`),
so the combined state is a pair of independent allocator states. -/
structure TwoSubAllocators where
  a : EVAllocatorState
  b : EVAllocatorState
deriving DecidableEq, Repr

/-- An `Alloc` issued through the first of two sub-allocators: only the
first sub-allocator's wrapped `EVAllocator` executes `AllocateRaw`. -/
def TwoSubAllocators.AllocThroughFirst (cfg : EVConfig)
    (alignedMalloc : Nat → Nat → Option Ptr)
    (getAllocatedSize : Option Ptr → Nat)
    (w : TwoSubAllocators) (alignment num_bytes : Nat) :
    TwoSubAllocators × Option Ptr :=
  let r := EVSubAllocator.Alloc cfg alignedMalloc getAllocatedSize w.a alignment num_bytes
  ({ a := r.state, b := w.b }, r.ret)

/-- A model of the external heap behind `port::AlignedMalloc` /
`port::AlignedFree` / `port::MallocExtension_GetAllocatedSize`:
`next` is the next fresh pointer identifier, `blocks` the live allocations
with their actual (possibly rounded-up) sizes. -/
structure Heap where
  next : Ptr
  blocks : List (Ptr × Nat)
deriving DecidableEq, Repr

def Heap.init : Heap := { next := 1, blocks := [] }

/-- `port::MallocExtension_GetAllocatedSize`: 0 on the null pointer or a
pointer the heap does not know, otherwise the recorded actual size. -/
def Heap.getAllocatedSize (h : Heap) : Option Ptr → Nat
  | none => 0
  | some p =>
    match h.blocks.find? (fun b => b.1 == p) with
    | some b => b.2
    | none => 0

/-- `port::AlignedMalloc(num_bytes, alignment)`: the environment decides
whether the call succeeds (`ok`) and the actual usable size `actual` the
heap reserves (internal rounding may make it exceed `num_bytes`). -/
def Heap.alignedMalloc (h : Heap) (num_bytes actual : Nat) (ok : Bool) :
    Heap × Option Ptr :=
  if ok then
    ({ next := h.next + 1, blocks := (h.next, actual) :: h.blocks }, some h.next)
  else (h, none)

/-- `port::AlignedFree(ptr)`: releases the (first) block recorded at `ptr`;
a no-op on null. -/
def Heap.alignedFree (h : Heap) : Option Ptr → Heap
  | none => h
  | some p => { h with blocks := h.blocks.eraseP (fun b => b.1 == p) }

/-- Whether `ptr` is a currently-live allocation of this heap. -/
def Heap.isLive (h : Heap) : Option Ptr → Bool
  | none => false
  | some p => h.blocks.any (fun b => b.1 == p)

/-- Sum of the actual allocated sizes of the currently-live allocations. -/
def Heap.liveBytes (h : Heap) : Int :=
  (h.blocks.map (fun b => (b.2 : Int))).sum

/-- One allocator instance together with the heap that backs it. -/
structure World where
  heap : Heap
  alloc : EVAllocatorState
deriving DecidableEq, Repr

def World.init : World := { heap := Heap.init, alloc := EVAllocatorState.init }

/-- A client-visible operation on the allocator.  For an allocation the
environment's choices (success and actual size) travel with the command. -/
inductive Cmd where
  | alloc (alignment num_bytes actual : Nat) (ok : Bool)
  | free (p : Option Ptr)
deriving DecidableEq, Repr

/-- Observable output of one step: the returned pointer (for allocations)
and the two warning flags. -/
structure StepOut where
  ret : Option Ptr
  single_warning : Bool
  total_warning : Bool
deriving DecidableEq, Repr

/-- One step of the combined system: `AllocateRaw` against the heap's
primitives (the size query sees the heap as it is after `AlignedMalloc`),
or `DeallocateRaw` followed by `AlignedFree`. -/
def World.step (cfg : EVConfig) (w : World) : Cmd → World × StepOut
  | Cmd.alloc alignment num_bytes actual ok =>
    let hm := w.heap.alignedMalloc num_bytes actual ok
    let r := EVAllocator.AllocateRaw cfg (fun _ _ => hm.2) hm.1.getAllocatedSize
      w.alloc alignment num_bytes
    ({ heap := hm.1, alloc := r.state },
     { ret := r.ret, single_warning := r.single_warning,
       total_warning := r.total_warning })
  | Cmd.free p =>
    let st := EVAllocator.DeallocateRaw cfg w.heap.getAllocatedSize w.alloc p
    ({ heap := w.heap.alignedFree p, alloc := st },
     { ret := none, single_warning := false, total_warning := false })

/-- Run a sequence of operations. -/
def World.run (cfg : EVConfig) (w : World) : List Cmd → World
  | [] => w
  | c :: t => World.run cfg (World.step cfg w c).1 t

/-- The state reached after the first `i` operations of trace `t`, starting
from a fresh allocator and an empty heap. -/
def World.stateAt (cfg : EVConfig) (t : List Cmd) (i : Nat) : World :=
  World.run cfg World.init (t.take i)

/-- `bytes_in_use` after the first `i` operations of trace `t`. -/
def World.bytesAt (cfg : EVConfig) (t : List Cmd) (i : Nat) : Int :=
  (World.stateAt cfg t i).alloc.stats.bytes_in_use

/-- Placeholder command used out of range (a free of null: no warnings, no
state change relevant to the observations below). -/
def cmdDefault : Cmd := Cmd.free none

/-- The observable output of step `i` of trace `t` (meaningful for
`i < t.length`). -/
def World.outAt (cfg : EVConfig) (t : List Cmd) (i : Nat) : StepOut :=
  (World.step cfg (World.stateAt cfg t i) (t.getD i cmdDefault)).2

/-- A trace is correctly paired when every `free` targets a pointer that is
live at the moment of the call (it was returned by a previous allocation
and has not been freed since). -/
def World.validTrace (cfg : EVConfig) (w : World) : List Cmd → Bool
  | [] => true
  | c :: t =>
    (match c with
     | Cmd.alloc _ _ _ _ => true
     | Cmd.free p => w.heap.isLive p) &&
      World.validTrace cfg (World.step cfg w c).1 t

/-- Number of single-allocation warnings logged while running `t` from `w`. -/
def World.countSingleWarnings (cfg : EVConfig) (w : World) : List Cmd → Nat
  | [] => 0
  | c :: t =>
    (if (World.step cfg w c).2.single_warning then 1 else 0) +
      World.countSingleWarnings cfg (World.step cfg w c).1 t

/-- Number of total-allocation (cumulative-usage) warnings logged while
running `t` from `w`. -/
def World.countTotalWarnings (cfg : EVConfig) (w : World) : List Cmd → Nat
  | [] => 0
  | c :: t =>
    (if (World.step cfg w c).2.total_warning then 1 else 0) +
      World.countTotalWarnings cfg (World.step cfg w c).1 t

/-- A command that requests an allocation whose `num_bytes` exceeds the
large-allocation threshold. -/
def Cmd.isLargeAlloc (cfg : EVConfig) : Cmd → Bool
  | Cmd.alloc _ num_bytes _ _ =>
    decide (cfg.largeAllocationWarningBytes < (num_bytes : Int))
  | Cmd.free _ => false

/-- `peak_bytes_in_use ≥ bytes_in_use`: the statistics invariant. -/
abbrev statsInv (st : EVAllocatorState) : Prop :=
  st.stats.bytes_in_use ≤ st.stats.peak_bytes_in_use

/-- Concrete environment pieces used by the closed witness statements. -/
def cfgStats : EVConfig :=
  { collect_stats := true
    largeAllocationWarningBytes := 1000
    totalAllocationWarningBytes := 5000 }

def mallocOk : Nat → Nat → Option Ptr := fun _ _ => some 1

def mallocFail : Nat → Nat → Option Ptr := fun _ _ => none

def sizeConst : Option Ptr → Nat := fun _ => 64

/-- Seven allocation requests of 2000 bytes each, all above the
1000-byte large-allocation threshold of `cfgStats`. -/
def largeTrace : List Cmd := List.replicate 7 (Cmd.alloc 16 2000 2000 true)

/-- Five 1200-byte allocations with actual size 1200: cumulative usage
crosses the 5000-byte threshold of `cfgStats` at the fifth allocation. -/
def crossingTrace : List Cmd := List.replicate 5 (Cmd.alloc 16 1200 1200 true)

/-! ## Theorems -/

theorem bumpSingleWarning_stats (st : EVAllocatorState) (b : Bool) :
    (bumpSingleWarning st b).stats = st.stats := by
  cases b <;> rfl

theorem bumpSingleWarning_total (st : EVAllocatorState) (b : Bool) :
    (bumpSingleWarning st b).total_allocation_warning_count =
      st.total_allocation_warning_count := by
  cases b <;> rfl

theorem bumpSingleWarning_single (st : EVAllocatorState) (b : Bool) :
    (bumpSingleWarning st b).single_allocation_warning_count =
      st.single_allocation_warning_count + (if b then 1 else 0) := by
  cases b <;> simp [bumpSingleWarning]

/-- C5: `ClearStats` zeroes `num_allocs` and `largest_alloc_size`, moves
`peak_bytes_in_use` down to the current `bytes_in_use`, and leaves
`bytes_in_use` and both warning counters untouched; an immediate `GetStats`
returns exactly that snapshot. -/
theorem clear_stats_frame (st : EVAllocatorState) :
    (EVAllocator.ClearStats st).stats.num_allocs = 0 ∧
    (EVAllocator.ClearStats st).stats.peak_bytes_in_use = st.stats.bytes_in_use ∧
    (EVAllocator.ClearStats st).stats.largest_alloc_size = 0 ∧
    (EVAllocator.ClearStats st).stats.bytes_in_use = st.stats.bytes_in_use ∧
    (EVAllocator.ClearStats st).single_allocation_warning_count =
      st.single_allocation_warning_count ∧
    (EVAllocator.ClearStats st).total_allocation_warning_count =
      st.total_allocation_warning_count ∧
    (EVAllocator.GetStats (EVAllocator.ClearStats st)).1 =
      some { num_allocs := 0
             bytes_in_use := st.stats.bytes_in_use
             peak_bytes_in_use := st.stats.bytes_in_use
             largest_alloc_size := 0 } :=
  ⟨rfl, rfl, rfl, rfl, rfl, rfl, rfl⟩

/-- C6: the requested alignment argument never influences `AllocateRaw`
(it is overridden to 8), and the aligned-allocation primitive is always
invoked with alignment 8. -/
theorem alignment_is_ignored (cfg : EVConfig)
    (alignedMalloc : Nat → Nat → Option Ptr)
    (getAllocatedSize : Option Ptr → Nat)
    (st : EVAllocatorState) (a1 a2 num_bytes : Nat) :
    EVAllocator.AllocateRaw cfg alignedMalloc getAllocatedSize st a1 num_bytes =
      EVAllocator.AllocateRaw cfg alignedMalloc getAllocatedSize st a2 num_bytes ∧
    (EVAllocator.AllocateRaw cfg alignedMalloc getAllocatedSize st a1 num_bytes).ret =
      alignedMalloc num_bytes 8 := by
  refine ⟨rfl, ?_⟩
  unfold EVAllocator.AllocateRaw
  cases hc : cfg.collect_stats <;> simp [hc]

/-- C9: `AllocateRaw` returns exactly the pointer the underlying
aligned-allocation primitive produced (null included, no retry), and the
returned value does not depend on the configuration or on the allocator
state (in particular, warning emission never alters it). -/
theorem allocate_raw_return_passthrough (cfg cfg2 : EVConfig)
    (alignedMalloc : Nat → Nat → Option Ptr)
    (getAllocatedSize getAllocatedSize2 : Option Ptr → Nat)
    (st st2 : EVAllocatorState) (a1 a2 num_bytes : Nat) :
    (EVAllocator.AllocateRaw cfg alignedMalloc getAllocatedSize st a1 num_bytes).ret =
      alignedMalloc num_bytes 8 ∧
    (EVAllocator.AllocateRaw cfg alignedMalloc getAllocatedSize st a1 num_bytes).ret =
      (EVAllocator.AllocateRaw cfg2 alignedMalloc getAllocatedSize2 st2 a2 num_bytes).ret := by
  constructor
  · unfold EVAllocator.AllocateRaw
    cases hc : cfg.collect_stats <;> simp [hc]
  · unfold EVAllocator.AllocateRaw
    cases hc : cfg.collect_stats <;> cases hc2 : cfg2.collect_stats <;> simp [hc, hc2]

/-- C10: with statistics enabled, `AllocateRaw` performs the statistics
update unconditionally, even when the primitive fails and returns null:
`num_allocs` still increments and `bytes_in_use` still absorbs the size the
size-query primitive reports for the null pointer. -/
theorem stats_updated_on_failed_alloc (cfg : EVConfig)
    (alignedMalloc : Nat → Nat → Option Ptr)
    (getAllocatedSize : Option Ptr → Nat)
    (st : EVAllocatorState) (alignment num_bytes : Nat)
    (hs : cfg.collect_stats = true)
    (hfail : alignedMalloc num_bytes 8 = none) :
    (EVAllocator.AllocateRaw cfg alignedMalloc getAllocatedSize st alignment
        num_bytes).state.stats.num_allocs = st.stats.num_allocs + 1 ∧
    (EVAllocator.AllocateRaw cfg alignedMalloc getAllocatedSize st alignment
        num_bytes).ret = none ∧
    (EVAllocator.AllocateRaw cfg alignedMalloc getAllocatedSize st alignment
        num_bytes).state.stats.bytes_in_use =
      st.stats.bytes_in_use + (getAllocatedSize none : Int) := by
  unfold EVAllocator.AllocateRaw
  simp only [hs, hfail, if_true]
  simp [bumpSingleWarning_stats]

/-- Closed witness for `stats_updated_on_failed_alloc`. -/
theorem stats_updated_on_failed_alloc_witness :
    cfgStats.collect_stats = true ∧ mallocFail 100 8 = none ∧
    ((EVAllocator.AllocateRaw cfgStats mallocFail sizeConst EVAllocatorState.init 16
        100).state.stats.num_allocs = EVAllocatorState.init.stats.num_allocs + 1 ∧
     (EVAllocator.AllocateRaw cfgStats mallocFail sizeConst EVAllocatorState.init 16
        100).ret = none ∧
     (EVAllocator.AllocateRaw cfgStats mallocFail sizeConst EVAllocatorState.init 16
        100).state.stats.bytes_in_use =
       EVAllocatorState.init.stats.bytes_in_use + (sizeConst none : Int)) :=
  ⟨rfl, rfl,
    stats_updated_on_failed_alloc cfgStats mallocFail sizeConst
      EVAllocatorState.init 16 100 rfl rfl⟩

/-- C8: the sub-allocator delegates `Alloc` verbatim to `AllocateRaw`,
`Free` to `DeallocateRaw` with the `num_bytes` hint discarded,
`CreateSubAllocator` behaves identically for every NUMA node, and an
allocation through one of two sub-allocators leaves the other's wrapped
allocator state (hence its statistics) unchanged. -/
theorem sub_allocator_refines_allocator (cfg : EVConfig)
    (alignedMalloc : Nat → Nat → Option Ptr)
    (getAllocatedSize : Option Ptr → Nat)
    (st : EVAllocatorState) (w : TwoSubAllocators)
    (alignment num_bytes hint1 hint2 : Nat) (p : Option Ptr) (n1 n2 : Int) :
    EVSubAllocator.Alloc cfg alignedMalloc getAllocatedSize st alignment num_bytes =
      EVAllocator.AllocateRaw cfg alignedMalloc getAllocatedSize st alignment num_bytes ∧
    EVSubAllocator.Free cfg getAllocatedSize st p hint1 =
      EVAllocator.DeallocateRaw cfg getAllocatedSize st p ∧
    EVSubAllocator.Free cfg getAllocatedSize st p hint1 =
      EVSubAllocator.Free cfg getAllocatedSize st p hint2 ∧
    EVAllocatorFactory.CreateSubAllocator n1 = EVAllocatorFactory.CreateSubAllocator n2 ∧
    EVAllocatorFactory.CreateSubAllocator n1 = EVAllocatorState.init ∧
    (TwoSubAllocators.AllocThroughFirst cfg alignedMalloc getAllocatedSize w
        alignment num_bytes).1.b = w.b :=
  ⟨rfl, rfl, rfl, rfl, rfl, rfl⟩

/-- C2: `peak_bytes_in_use ≥ bytes_in_use` holds in the initial state and
is preserved by `AllocateRaw`, `DeallocateRaw`, `ClearStats` and `GetStats`
(for every configuration, so in particular whenever statistics collection
is enabled). -/
theorem peak_ge_bytes_invariant :
    statsInv EVAllocatorState.init ∧
    (∀ (cfg : EVConfig) (m : Nat → Nat → Option Ptr) (g : Option Ptr → Nat)
        (st : EVAllocatorState) (alignment num_bytes : Nat), statsInv st →
      statsInv (EVAllocator.AllocateRaw cfg m g st alignment num_bytes).state) ∧
    (∀ (cfg : EVConfig) (g : Option Ptr → Nat) (st : EVAllocatorState)
        (p : Option Ptr), statsInv st →
      statsInv (EVAllocator.DeallocateRaw cfg g st p)) ∧
    (∀ st : EVAllocatorState, statsInv st →
      statsInv (EVAllocator.ClearStats st)) ∧
    (∀ st : EVAllocatorState, statsInv st →
      statsInv (EVAllocator.GetStats st).2) := by
  refine ⟨le_refl 0, ?_, ?_, ?_, ?_⟩
  · intro cfg m g st alignment num_bytes h
    unfold EVAllocator.AllocateRaw
    cases hc : cfg.collect_stats
    · simp only [hc, Bool.false_eq_true, if_false]
      simpa [statsInv, bumpSingleWarning_stats] using h
    · simp only [hc, if_true]
      exact le_max_right _ _
  · intro cfg g st p h
    unfold EVAllocator.DeallocateRaw
    cases hc : cfg.collect_stats
    · simp only [hc, Bool.false_eq_true, if_false]
      exact h
    · simp only [hc, if_true, statsInv] at h ⊢
      have hg : (0 : Int) ≤ (g p : Int) := Int.ofNat_nonneg _
      omega
  · intro st h
    exact le_refl _
  · intro st h
    exact h

/-- Closed witness for `peak_ge_bytes_invariant`. -/
theorem peak_ge_bytes_invariant_witness :
    statsInv EVAllocatorState.init ∧
    statsInv (EVAllocator.AllocateRaw cfgStats mallocOk sizeConst
      EVAllocatorState.init 16 100).state ∧
    statsInv (EVAllocator.DeallocateRaw cfgStats sizeConst
      EVAllocatorState.init (some 1)) ∧
    statsInv (EVAllocator.ClearStats EVAllocatorState.init) ∧
    statsInv (EVAllocator.GetStats EVAllocatorState.init).2 :=
  ⟨peak_ge_bytes_invariant.1,
   peak_ge_bytes_invariant.2.1 cfgStats mallocOk sizeConst
     EVAllocatorState.init 16 100 (by decide),
   peak_ge_bytes_invariant.2.2.1 cfgStats sizeConst
     EVAllocatorState.init (some 1) (by decide),
   peak_ge_bytes_invariant.2.2.2.1 EVAllocatorState.init (by decide),
   peak_ge_bytes_invariant.2.2.2.2 EVAllocatorState.init (by decide)⟩

/-- A warm cache is never recomputed: every later call returns the cached
value and performs no system-memory query. -/
theorem cachedCalls_warm (compute : Int → Int) (ram v : Int) (n : Nat) :
    cachedCalls compute ram n (some v) = (List.replicate n v, some v, 0) := by
  induction n with
  | zero => rfl
  | succ m ih => simp [cachedCalls, cachedCall, ih, List.replicate_succ]

/-- Starting cold, `m + 1` calls perform exactly one query and always
return the computed value. -/
theorem cachedCalls_cold (compute : Int → Int) (ram : Int) (m : Nat) :
    cachedCalls compute ram (m + 1) none =
      (List.replicate (m + 1) (compute ram), some (compute ram), 1) := by
  simp [cachedCalls, cachedCall, cachedCalls_warm, List.replicate_succ]

/-- C7: over any positive number of calls, each threshold accessor queries
the external available-system-memory service exactly once, and every call
returns the cached value: available RAM times 0.1 for the per-allocation
threshold and times 0.5 for the cumulative threshold (cast to `int64`). -/
theorem threshold_accessors_query_once (ram : Int) (n : Nat) (hn : 1 ≤ n) :
    ((cachedCalls largeAllocationWarningBytesOf ram n none).2.2 = 1 ∧
     (cachedCalls largeAllocationWarningBytesOf ram n none).1 =
       List.replicate n
         (doubleToInt64 ((ram : Rat) * kLargeAllocationWarningThreshold))) ∧
    ((cachedCalls totalAllocationWarningBytesOf ram n none).2.2 = 1 ∧
     (cachedCalls totalAllocationWarningBytesOf ram n none).1 =
       List.replicate n
         (doubleToInt64 ((ram : Rat) * kTotalAllocationWarningThreshold))) := by
  obtain ⟨m, rfl⟩ : ∃ m, n = m + 1 := ⟨n - 1, by omega⟩
  simp [cachedCalls_cold, largeAllocationWarningBytesOf, totalAllocationWarningBytesOf]

/-- Closed witness for `threshold_accessors_query_once`. -/
theorem threshold_accessors_query_once_witness :
    1 ≤ 3 ∧
    (((cachedCalls largeAllocationWarningBytesOf 1000 3 none).2.2 = 1 ∧
      (cachedCalls largeAllocationWarningBytesOf 1000 3 none).1 =
        List.replicate 3
          (doubleToInt64 (((1000 : Int) : Rat) * kLargeAllocationWarningThreshold))) ∧
     ((cachedCalls totalAllocationWarningBytesOf 1000 3 none).2.2 = 1 ∧
      (cachedCalls totalAllocationWarningBytesOf 1000 3 none).1 =
        List.replicate 3
          (doubleToInt64 (((1000 : Int) : Rat) * kTotalAllocationWarningThreshold)))) :=
  ⟨by decide, threshold_accessors_query_once 1000 3 (by decide)⟩

/-! ### Trace infrastructure -/

theorem run_append (cfg : EVConfig) (w : World) (t1 t2 : List Cmd) :
    World.run cfg w (t1 ++ t2) = World.run cfg (World.run cfg w t1) t2 := by
  induction t1 generalizing w with
  | nil => rfl
  | cons c t ih => simp only [List.cons_append, World.run]; exact ih _

theorem stateAt_zero (cfg : EVConfig) (t : List Cmd) :
    World.stateAt cfg t 0 = World.init := rfl

theorem stateAt_succ (cfg : EVConfig) (t : List Cmd) (i : Nat) (h : i < t.length) :
    World.stateAt cfg t (i + 1) =
      (World.step cfg (World.stateAt cfg t i) (t.getD i cmdDefault)).1 := by
  unfold World.stateAt
  rw [List.take_succ]
  have hg : t[i]?.toList = [t.getD i cmdDefault] := by
    rw [List.getD_eq_getElem t cmdDefault h]
    simp [List.getElem?_eq_getElem h]
  rw [hg, run_append]
  rfl

theorem stateAt_stable (cfg : EVConfig) (t : List Cmd) (i : Nat)
    (h : t.length ≤ i) :
    World.stateAt cfg t (i + 1) = World.stateAt cfg t i := by
  unfold World.stateAt
  rw [List.take_of_length_le (le_trans h (Nat.le_succ i)), List.take_of_length_le h]

/-- A deallocation step emits no warnings and returns no pointer. -/
theorem step_free_out (cfg : EVConfig) (w : World) (p : Option Ptr) :
    (World.step cfg w (Cmd.free p)).2 =
      { ret := none, single_warning := false, total_warning := false } := rfl

/-- A deallocation step never increases `bytes_in_use`. -/
theorem step_free_bytes (cfg : EVConfig) (w : World) (p : Option Ptr) :
    (World.step cfg w (Cmd.free p)).1.alloc.stats.bytes_in_use ≤
      w.alloc.stats.bytes_in_use := by
  unfold World.step EVAllocator.DeallocateRaw
  cases hc : cfg.collect_stats <;> simp [hc]

/-- A deallocation step changes neither warning counter. -/
theorem step_free_counters (cfg : EVConfig) (w : World) (p : Option Ptr) :
    (World.step cfg w (Cmd.free p)).1.alloc.single_allocation_warning_count =
      w.alloc.single_allocation_warning_count ∧
    (World.step cfg w (Cmd.free p)).1.alloc.total_allocation_warning_count =
      w.alloc.total_allocation_warning_count := by
  unfold World.step EVAllocator.DeallocateRaw
  cases hc : cfg.collect_stats <;> simp [hc]

/-- The single-allocation warning of an allocation step fires exactly when
the request is large and the atomic counter is still below its cap. -/
theorem step_alloc_single_warning (cfg : EVConfig) (w : World)
    (a nb act : Nat) (ok : Bool) :
    (World.step cfg w (Cmd.alloc a nb act ok)).2.single_warning =
      singleWarningTriggered cfg w.alloc nb := by
  unfold World.step EVAllocator.AllocateRaw
  cases hc : cfg.collect_stats <;> simp [hc]

/-- Each step advances the atomic single-allocation counter by exactly the
number of single-allocation warnings it emits. -/
theorem step_single_count (cfg : EVConfig) (w : World) (c : Cmd) :
    (World.step cfg w c).1.alloc.single_allocation_warning_count =
      w.alloc.single_allocation_warning_count +
        (if (World.step cfg w c).2.single_warning then 1 else 0) := by
  cases c with
  | free p =>
    rw [step_free_out, (step_free_counters cfg w p).1]
    simp
  | alloc a nb act ok =>
    rw [step_alloc_single_warning]
    unfold World.step EVAllocator.AllocateRaw
    cases hc : cfg.collect_stats <;> simp [hc, bumpSingleWarning_single]

/-- Each step advances the locked total-allocation counter by exactly the
number of cumulative-usage warnings it emits. -/
theorem step_total_count (cfg : EVConfig) (w : World) (c : Cmd) :
    (World.step cfg w c).1.alloc.total_allocation_warning_count =
      w.alloc.total_allocation_warning_count +
        (if (World.step cfg w c).2.total_warning then 1 else 0) := by
  cases c with
  | free p =>
    rw [step_free_out, (step_free_counters cfg w p).2]
    simp
  | alloc a nb act ok =>
    unfold World.step EVAllocator.AllocateRaw
    cases hc : cfg.collect_stats <;> simp [hc, bumpSingleWarning_total]
    split <;> simp [bumpSingleWarning_total]

/-- With statistics enabled, the cumulative warning flag of an allocation
step is the `totalWarningTriggered` predicate applied to the post-step
`bytes_in_use` and the pre-step counter. -/
theorem step_alloc_total_warning (cfg : EVConfig) (w : World)
    (a nb act : Nat) (ok : Bool) (hs : cfg.collect_stats = true) :
    (World.step cfg w (Cmd.alloc a nb act ok)).2.total_warning =
      totalWarningTriggered cfg
        ((World.step cfg w (Cmd.alloc a nb act ok)).1.alloc.stats.bytes_in_use)
        w.alloc.total_allocation_warning_count := by
  unfold World.step EVAllocator.AllocateRaw
  simp [hs, bumpSingleWarning_stats, bumpSingleWarning_total]

/-- With statistics enabled, an allocation step adds the reported actual
size to `bytes_in_use` (so never decreases it). -/
theorem step_alloc_bytes (cfg : EVConfig) (w : World)
    (a nb act : Nat) (ok : Bool) (hs : cfg.collect_stats = true) :
    (World.step cfg w (Cmd.alloc a nb act ok)).1.alloc.stats.bytes_in_use =
      w.alloc.stats.bytes_in_use +
        (((w.heap.alignedMalloc nb act ok).1.getAllocatedSize
            (w.heap.alignedMalloc nb act ok).2 : Nat) : Int) := by
  unfold World.step EVAllocator.AllocateRaw
  simp [hs, bumpSingleWarning_stats]

/-! ### Accounting (C1) -/

/-- Releasing the first block recorded at a key removes exactly the bytes
the size query reports for that key. -/
theorem sum_eraseP_key (l : List (Ptr × Nat)) (q : Ptr) :
    ((l.eraseP (fun b => b.1 == q)).map (fun b => (b.2 : Int))).sum =
      (l.map (fun b => (b.2 : Int))).sum -
        (match l.find? (fun b => b.1 == q) with
         | some b => (b.2 : Int)
         | none => 0) := by
  induction l with
  | nil => simp
  | cons a l ih =>
    rw [List.eraseP_cons, List.find?_cons]
    cases h : (a.1 == q)
    · simp only [cond_false, List.map_cons, List.sum_cons, h, Bool.false_eq_true,
        if_false, ih]
      cases hf : l.find? (fun b => b.1 == q) <;> simp [hf] <;> ring
    · simp [h]

/-- Liveness bookkeeping of `AlignedFree`. -/
theorem liveBytes_alignedFree (h : Heap) (p : Option Ptr) :
    (h.alignedFree p).liveBytes =
      h.liveBytes - (h.getAllocatedSize p : Int) := by
  cases p with
  | none => simp [Heap.alignedFree, Heap.getAllocatedSize]
  | some q =>
    unfold Heap.alignedFree Heap.getAllocatedSize Heap.liveBytes
    simp only
    rw [sum_eraseP_key]
    cases hf : h.blocks.find? (fun b => b.1 == q) <;> simp [hf]

/-- Liveness bookkeeping of a successful `AlignedMalloc`: the fresh block
is live with its actual size, and the size query on the returned pointer
reports exactly that size. -/
theorem alignedMalloc_ok (h : Heap) (nb act : Nat) :
    (h.alignedMalloc nb act true).1.liveBytes = h.liveBytes + (act : Int) ∧
    ((h.alignedMalloc nb act true).1.getAllocatedSize
        (h.alignedMalloc nb act true).2 : Nat) = act := by
  constructor
  · simp [Heap.alignedMalloc, Heap.liveBytes]
    omega
  · simp [Heap.alignedMalloc, Heap.getAllocatedSize, List.find?_cons]

/-- One step preserves the accounting invariant
`bytes_in_use = sum of live actual sizes`, statistics enabled. -/
theorem step_preserves_accounting (cfg : EVConfig) (w : World) (c : Cmd)
    (hs : cfg.collect_stats = true)
    (hinv : w.alloc.stats.bytes_in_use = w.heap.liveBytes) :
    (World.step cfg w c).1.alloc.stats.bytes_in_use =
      (World.step cfg w c).1.heap.liveBytes := by
  cases c with
  | alloc a nb act ok =>
    rw [step_alloc_bytes cfg w a nb act ok hs, hinv]
    cases ok
    · simp [World.step, Heap.alignedMalloc, Heap.getAllocatedSize]
    · have hm := alignedMalloc_ok w.heap nb act
      rw [hm.2]
      have hheap : (World.step cfg w (Cmd.alloc a nb act true)).1.heap =
          (w.heap.alignedMalloc nb act true).1 := by
        unfold World.step
        rfl
      rw [hheap, hm.1]
  | free p =>
    have hheap : (World.step cfg w (Cmd.free p)).1.heap = w.heap.alignedFree p := rfl
    have hbytes : (World.step cfg w (Cmd.free p)).1.alloc.stats.bytes_in_use =
        w.alloc.stats.bytes_in_use - (w.heap.getAllocatedSize p : Int) := by
      unfold World.step EVAllocator.DeallocateRaw
      simp [hs]
    rw [hheap, hbytes, hinv, liveBytes_alignedFree]

/-- C1: with statistics enabled, after any correctly paired sequence of
allocations and deallocations, `bytes_in_use` equals the sum of the actual
allocated sizes (as reported by the size-query primitive) of the
currently-live allocations. -/
theorem bytes_in_use_eq_live_bytes (cfg : EVConfig) (t : List Cmd)
    (hs : cfg.collect_stats = true)
    (hvalid : World.validTrace cfg World.init t = true) :
    (World.run cfg World.init t).alloc.stats.bytes_in_use =
      (World.run cfg World.init t).heap.liveBytes := by
  clear hvalid
  have hgen : ∀ (u : List Cmd) (w : World),
      w.alloc.stats.bytes_in_use = w.heap.liveBytes →
      (World.run cfg w u).alloc.stats.bytes_in_use =
        (World.run cfg w u).heap.liveBytes := by
    intro u
    induction u with
    | nil => intro w hw; exact hw
    | cons c u ih =>
      intro w hw
      exact ih _ (step_preserves_accounting cfg w c hs hw)
  exact hgen t World.init rfl

/-- Closed witness for `bytes_in_use_eq_live_bytes`: two allocations of
actual sizes 128 and 256 followed by a free of the first. -/
theorem bytes_in_use_eq_live_bytes_witness :
    cfgStats.collect_stats = true ∧
    World.validTrace cfgStats World.init
      [Cmd.alloc 16 100 128 true, Cmd.alloc 16 200 256 true, Cmd.free (some 1)] = true ∧
    (World.run cfgStats World.init
        [Cmd.alloc 16 100 128 true, Cmd.alloc 16 200 256 true,
         Cmd.free (some 1)]).alloc.stats.bytes_in_use =
      (World.run cfgStats World.init
        [Cmd.alloc 16 100 128 true, Cmd.alloc 16 200 256 true,
         Cmd.free (some 1)]).heap.liveBytes :=
  ⟨rfl, by decide,
    bytes_in_use_eq_live_bytes cfgStats
      [Cmd.alloc 16 100 128 true, Cmd.alloc 16 200 256 true, Cmd.free (some 1)]
      rfl (by decide)⟩

/-! ### Single-allocation warning cap (C3) -/

/-- The atomic counter advances by exactly the number of single-allocation
warnings emitted along a run. -/
theorem run_single_count (cfg : EVConfig) (t : List Cmd) (w : World) :
    (World.run cfg w t).alloc.single_allocation_warning_count =
      w.alloc.single_allocation_warning_count +
        (World.countSingleWarnings cfg w t : Int) := by
  induction t generalizing w with
  | nil => simp [World.run, World.countSingleWarnings]
  | cons c t ih =>
    simp only [World.run, World.countSingleWarnings]
    rw [ih, step_single_count]
    cases hw : (World.step cfg w c).2.single_warning <;> simp [hw] <;> omega

/-- Over a trace of all-large allocation requests, the atomic counter
saturates at the cap. -/
theorem run_single_count_large (cfg : EVConfig) (t : List Cmd) (w : World)
    (hlarge : ∀ c ∈ t, Cmd.isLargeAlloc cfg c = true)
    (h0 : 0 ≤ w.alloc.single_allocation_warning_count)
    (h5 : w.alloc.single_allocation_warning_count ≤ kMaxSingleAllocationWarnings) :
    (World.run cfg w t).alloc.single_allocation_warning_count =
      min (w.alloc.single_allocation_warning_count + t.length)
        kMaxSingleAllocationWarnings := by
  induction t generalizing w with
  | nil =>
    simp only [World.run, List.length_nil, Nat.cast_zero, add_zero]
    simp only [kMaxSingleAllocationWarnings] at h5 ⊢
    omega
  | cons c t ih =>
    obtain hc := hlarge c (List.mem_cons_self c t)
    cases c with
    | free p => simp [Cmd.isLargeAlloc] at hc
    | alloc a nb act ok =>
      have hc2 : cfg.largeAllocationWarningBytes < (nb : Int) := by
        simpa [Cmd.isLargeAlloc] using hc
      have hw : (World.step cfg w (Cmd.alloc a nb act ok)).2.single_warning =
          decide (w.alloc.single_allocation_warning_count <
            kMaxSingleAllocationWarnings) := by
        rw [step_alloc_single_warning]
        simp [singleWarningTriggered, hc2]
      have hstep := step_single_count cfg w (Cmd.alloc a nb act ok)
      rw [hw] at hstep
      have hl : ∀ c ∈ t, Cmd.isLargeAlloc cfg c = true :=
        fun c hcm => hlarge c (List.mem_cons_of_mem _ hcm)
      simp only [World.run]
      rw [ih _ hl ?_ ?_] <;> rw [hstep] <;>
        simp only [kMaxSingleAllocationWarnings, List.length_cons] at h5 ⊢ <;>
        by_cases hlt : w.alloc.single_allocation_warning_count < 5 <;>
        simp [hlt] <;> omega

/-- The atomic counter along any run of all-large allocations equals
`min i 5` after `i` steps. -/
theorem stateAt_single_count_large (cfg : EVConfig) (t : List Cmd) (i : Nat)
    (hlarge : ∀ c ∈ t, Cmd.isLargeAlloc cfg c = true) :
    (World.stateAt cfg t i).alloc.single_allocation_warning_count =
      min (min (i : Int) (t.length : Int)) kMaxSingleAllocationWarnings := by
  unfold World.stateAt
  rw [run_single_count_large cfg (t.take i) World.init
    (fun c hcm => hlarge c (List.take_subset i t hcm)) (by decide) (by decide)]
  simp only [kMaxSingleAllocationWarnings, List.length_take]
  have hz : World.init.alloc.single_allocation_warning_count = 0 := rfl
  rw [hz]
  push_cast
  omega

/-- C3: for any allocator instance (statistics enabled or disabled), a
sequence of allocations each exceeding the large-allocation threshold emits
exactly `min n 5` single-allocation warnings — exactly 5 once `n > 5` —
and a warning fires at step `i` precisely when `i < 5`. -/
theorem single_warning_cap (cfg : EVConfig) (t : List Cmd)
    (hlarge : t.all (Cmd.isLargeAlloc cfg) = true) :
    (World.countSingleWarnings cfg World.init t : Int) =
      min (t.length : Int) kMaxSingleAllocationWarnings ∧
    ∀ i, i < t.length →
      ((World.outAt cfg t i).single_warning = true ↔ i < 5) := by
  rw [List.all_eq_true] at hlarge
  constructor
  · have hrun := run_single_count cfg t World.init
    have hlast := run_single_count_large cfg t World.init hlarge (by decide) (by decide)
    rw [hrun] at hlast
    have hz : World.init.alloc.single_allocation_warning_count = 0 := rfl
    rw [hz] at hlast
    simpa using hlast
  · intro i hi
    have hcount := stateAt_single_count_large cfg t i hlarge
    have hmem : t.getD i cmdDefault ∈ t := by
      rw [List.getD_eq_getElem t cmdDefault hi]
      exact List.getElem_mem hi
    obtain hci := hlarge _ hmem
    unfold World.outAt
    cases hg : t.getD i cmdDefault with
    | free p => rw [hg] at hci; simp [Cmd.isLargeAlloc] at hci
    | alloc a nb act ok =>
      rw [hg] at hci
      have hc2 : cfg.largeAllocationWarningBytes < (nb : Int) := by
        simpa [Cmd.isLargeAlloc] using hci
      rw [step_alloc_single_warning]
      have hcast : (i : Int) < (t.length : Int) := by exact_mod_cast hi
      simp only [singleWarningTriggered, hcount, kMaxSingleAllocationWarnings,
        Bool.and_eq_true, decide_eq_true_eq]
      constructor
      · intro hcond
        obtain ⟨h1, hmin⟩ := hcond
        omega
      · intro hcond
        exact ⟨hc2, by omega⟩

/-- Closed witness for `single_warning_cap`: seven over-threshold
allocations yield exactly five warnings; step 4 warns, step 6 does not. -/
theorem single_warning_cap_witness :
    largeTrace.all (Cmd.isLargeAlloc cfgStats) = true ∧
    (World.countSingleWarnings cfgStats World.init largeTrace : Int) =
      min (largeTrace.length : Int) kMaxSingleAllocationWarnings ∧
    ((World.outAt cfgStats largeTrace 4).single_warning = true ↔ 4 < 5) ∧
    ((World.outAt cfgStats largeTrace 6).single_warning = true ↔ 6 < 5) :=
  ⟨by decide, (single_warning_cap cfgStats largeTrace (by decide)).1,
   (single_warning_cap cfgStats largeTrace (by decide)).2 4 (by decide),
   (single_warning_cap cfgStats largeTrace (by decide)).2 6 (by decide)⟩

/-! ### Cumulative-usage warning (C4) -/

/-- The locked counter advances by exactly the number of cumulative-usage
warnings emitted along a run. -/
theorem run_total_count (cfg : EVConfig) (t : List Cmd) (w : World) :
    (World.run cfg w t).alloc.total_allocation_warning_count =
      w.alloc.total_allocation_warning_count +
        (World.countTotalWarnings cfg w t : Int) := by
  induction t generalizing w with
  | nil => simp [World.run, World.countTotalWarnings]
  | cons c t ih =>
    simp only [World.run, World.countTotalWarnings]
    rw [ih, step_total_count]
    cases hw : (World.step cfg w c).2.total_warning <;> simp [hw] <;> omega

/-- A step whose resulting `bytes_in_use` stays at or below the cumulative
threshold emits no cumulative-usage warning. -/
theorem step_total_warning_false (cfg : EVConfig) (w : World) (c : Cmd)
    (hs : cfg.collect_stats = true)
    (hb : (World.step cfg w c).1.alloc.stats.bytes_in_use ≤
      cfg.totalAllocationWarningBytes) :
    (World.step cfg w c).2.total_warning = false := by
  cases c with
  | free p => rw [step_free_out]
  | alloc a nb act ok =>
    rw [step_alloc_total_warning cfg w a nb act ok hs]
    unfold totalWarningTriggered
    have hnb : ¬(cfg.totalAllocationWarningBytes <
        (World.step cfg w (Cmd.alloc a nb act ok)).1.alloc.stats.bytes_in_use) :=
      not_lt.mpr hb
    simp [hnb]

/-- One step preserves the cumulative-warning invariant: the locked counter
stays within `[0, 1]`, and while it is 0 `bytes_in_use` has never exceeded
the threshold (statistics enabled). -/
theorem step_total_inv (cfg : EVConfig) (w : World) (c : Cmd)
    (hs : cfg.collect_stats = true)
    (h0 : 0 ≤ w.alloc.total_allocation_warning_count)
    (h1 : w.alloc.total_allocation_warning_count ≤ 1)
    (h2 : w.alloc.total_allocation_warning_count = 0 →
      w.alloc.stats.bytes_in_use ≤ cfg.totalAllocationWarningBytes) :
    0 ≤ (World.step cfg w c).1.alloc.total_allocation_warning_count ∧
    (World.step cfg w c).1.alloc.total_allocation_warning_count ≤ 1 ∧
    ((World.step cfg w c).1.alloc.total_allocation_warning_count = 0 →
      (World.step cfg w c).1.alloc.stats.bytes_in_use ≤
        cfg.totalAllocationWarningBytes) := by
  have hcnt := step_total_count cfg w c
  cases c with
  | free p =>
    rw [step_free_out] at hcnt
    simp only [if_false, Bool.false_eq_true, add_zero] at hcnt
    have hb := step_free_bytes cfg w p
    refine ⟨by omega, by omega, fun hz => ?_⟩
    rw [hcnt] at hz
    exact le_trans hb (h2 hz)
  | alloc a nb act ok =>
    have hwarn := step_alloc_total_warning cfg w a nb act ok hs
    rw [hwarn] at hcnt
    cases ht : totalWarningTriggered cfg
        ((World.step cfg w (Cmd.alloc a nb act ok)).1.alloc.stats.bytes_in_use)
        w.alloc.total_allocation_warning_count
    · rw [ht] at hcnt
      simp only [if_false, Bool.false_eq_true, add_zero] at hcnt
      have htr := ht
      unfold totalWarningTriggered at htr
      simp only [Bool.and_eq_false_iff, decide_eq_false_iff_not, not_lt,
        kMaxTotalAllocationWarnings] at htr
      refine ⟨by omega, by omega, fun hz => ?_⟩
      rcases htr with hble | hcge
      · exact hble
      · omega
    · rw [ht] at hcnt
      simp only [if_true, reduceIte] at hcnt
      have htr := ht
      unfold totalWarningTriggered at htr
      simp only [Bool.and_eq_true, decide_eq_true_eq,
        kMaxTotalAllocationWarnings] at htr
      refine ⟨by omega, by omega, fun hz => ?_⟩
      omega

/-- The cumulative-warning invariant holds at every point of a run from a
fresh allocator, provided the threshold is nonnegative (as computed values
always are). -/
theorem stateAt_total_inv (cfg : EVConfig) (t : List Cmd)
    (hs : cfg.collect_stats = true)
    (hthr : 0 ≤ cfg.totalAllocationWarningBytes) (i : Nat) :
    0 ≤ (World.stateAt cfg t i).alloc.total_allocation_warning_count ∧
    (World.stateAt cfg t i).alloc.total_allocation_warning_count ≤ 1 ∧
    ((World.stateAt cfg t i).alloc.total_allocation_warning_count = 0 →
      (World.stateAt cfg t i).alloc.stats.bytes_in_use ≤
        cfg.totalAllocationWarningBytes) := by
  induction i with
  | zero => exact ⟨le_refl 0, zero_le_one, fun _ => hthr⟩
  | succ i ih =>
    by_cases hi : i < t.length
    · rw [stateAt_succ cfg t i hi]
      exact step_total_inv cfg _ _ hs ih.1 ih.2.1 ih.2.2
    · rw [stateAt_stable cfg t i (le_of_not_lt hi)]
      exact ih

/-- The locked counter never decreases from one step to the next. -/
theorem stateAt_total_count_succ_ge (cfg : EVConfig) (t : List Cmd) (j : Nat) :
    (World.stateAt cfg t j).alloc.total_allocation_warning_count ≤
      (World.stateAt cfg t (j + 1)).alloc.total_allocation_warning_count := by
  by_cases hj : j < t.length
  · rw [stateAt_succ cfg t j hj, step_total_count]
    split <;> omega
  · rw [stateAt_stable cfg t j (le_of_not_lt hj)]

/-- The locked counter is monotone along a run. -/
theorem stateAt_total_count_mono (cfg : EVConfig) (t : List Cmd) (i j : Nat)
    (hij : i ≤ j) :
    (World.stateAt cfg t i).alloc.total_allocation_warning_count ≤
      (World.stateAt cfg t j).alloc.total_allocation_warning_count := by
  induction hij with
  | refl => exact le_refl _
  | step h ih => exact le_trans ih (stateAt_total_count_succ_ge cfg t _)

/-- The locked counter is still 0 after `i` steps exactly when
`bytes_in_use` has stayed at or below the cumulative threshold throughout. -/
theorem stateAt_total_count_zero_iff (cfg : EVConfig) (t : List Cmd)
    (hs : cfg.collect_stats = true)
    (hthr : 0 ≤ cfg.totalAllocationWarningBytes) (i : Nat) :
    (World.stateAt cfg t i).alloc.total_allocation_warning_count = 0 ↔
      ∀ j, j ≤ i → World.bytesAt cfg t j ≤ cfg.totalAllocationWarningBytes := by
  constructor
  · intro hz j hj
    have hmono := stateAt_total_count_mono cfg t j i hj
    have hinvj := stateAt_total_inv cfg t hs hthr j
    exact hinvj.2.2 (by omega)
  · intro hb
    induction i with
    | zero => rfl
    | succ i ih =>
      have hzi : (World.stateAt cfg t i).alloc.total_allocation_warning_count = 0 :=
        ih (fun j hj => hb j (le_trans hj (Nat.le_succ i)))
      by_cases hi : i < t.length
      · have hbsucc := hb (i + 1) (le_refl _)
        unfold World.bytesAt at hbsucc
        rw [stateAt_succ cfg t i hi] at hbsucc
        have hwf := step_total_warning_false cfg (World.stateAt cfg t i)
          (t.getD i cmdDefault) hs hbsucc
        rw [stateAt_succ cfg t i hi, step_total_count, hwf]
        simpa using hzi
      · rw [stateAt_stable cfg t i (le_of_not_lt hi)]
        exact hzi

/-- C4: with statistics enabled and a nonnegative cumulative threshold, the
cumulative-usage warning fires at step `i` exactly when that step pushes
`bytes_in_use` strictly above the threshold for the first time — never
before the crossing and never after it — and the total number of
cumulative warnings over any trace is at most one. -/
theorem total_warning_exactly_once (cfg : EVConfig) (t : List Cmd)
    (hs : cfg.collect_stats = true)
    (hthr : 0 ≤ cfg.totalAllocationWarningBytes) :
    (∀ i, i < t.length →
      ((World.outAt cfg t i).total_warning = true ↔
        (cfg.totalAllocationWarningBytes < World.bytesAt cfg t (i + 1) ∧
         ∀ j, j ≤ i →
           World.bytesAt cfg t j ≤ cfg.totalAllocationWarningBytes))) ∧
    World.countTotalWarnings cfg World.init t ≤ 1 := by
  constructor
  · intro i hi
    have hinv := stateAt_total_inv cfg t hs hthr i
    have hbsucc : World.bytesAt cfg t (i + 1) =
        (World.step cfg (World.stateAt cfg t i)
          (t.getD i cmdDefault)).1.alloc.stats.bytes_in_use := by
      unfold World.bytesAt
      rw [stateAt_succ cfg t i hi]
    unfold World.outAt
    constructor
    · intro hwt
      cases hg : t.getD i cmdDefault with
      | free p =>
        rw [hg, step_free_out] at hwt
        exact absurd hwt (by simp)
      | alloc a nb act ok =>
        rw [hg] at hwt
        rw [step_alloc_total_warning cfg _ a nb act ok hs] at hwt
        unfold totalWarningTriggered at hwt
        simp only [Bool.and_eq_true, decide_eq_true_eq,
          kMaxTotalAllocationWarnings] at hwt
        obtain ⟨hgt, hlt⟩ := hwt
        have hz : (World.stateAt cfg t i).alloc.total_allocation_warning_count = 0 := by
          omega
        refine ⟨?_, (stateAt_total_count_zero_iff cfg t hs hthr i).mp hz⟩
        rw [hbsucc, hg]
        exact hgt
    · intro hcond
      obtain ⟨hgt, hall⟩ := hcond
      have hz := (stateAt_total_count_zero_iff cfg t hs hthr i).mpr hall
      cases hg : t.getD i cmdDefault with
      | free p =>
        exfalso
        have hfb := step_free_bytes cfg (World.stateAt cfg t i) p
        rw [hbsucc, hg] at hgt
        have hbi := hall i (le_refl i)
        unfold World.bytesAt at hbi
        omega
      | alloc a nb act ok =>
        rw [step_alloc_total_warning cfg _ a nb act ok hs]
        unfold totalWarningTriggered
        rw [hg] at hbsucc
        rw [← hbsucc, hz]
        simp only [Bool.and_eq_true, decide_eq_true_eq,
          kMaxTotalAllocationWarnings]
        exact ⟨hgt, by omega⟩
  · have hrun := run_total_count cfg t World.init
    have hz : World.init.alloc.total_allocation_warning_count = 0 := rfl
    rw [hz] at hrun
    have hfin : World.run cfg World.init t = World.stateAt cfg t t.length := by
      unfold World.stateAt
      rw [List.take_of_length_le (le_refl _)]
    rw [hfin] at hrun
    have hinv := stateAt_total_inv cfg t hs hthr t.length
    omega

/-- Closed witness for `total_warning_exactly_once`: five 1200-byte
allocations against a 5000-byte cumulative threshold warn exactly at the
fifth allocation (step index 4) and never again. -/
theorem total_warning_exactly_once_witness :
    cfgStats.collect_stats = true ∧
    0 ≤ cfgStats.totalAllocationWarningBytes ∧
    World.countTotalWarnings cfgStats World.init crossingTrace ≤ 1 ∧
    (World.outAt cfgStats crossingTrace 4).total_warning = true :=
  ⟨rfl, by decide,
   (total_warning_exactly_once cfgStats crossingTrace rfl (by decide)).2,
   ((total_warning_exactly_once cfgStats crossingTrace rfl (by decide)).1 4
      (by decide)).mpr ⟨by decide, by decide⟩⟩

end EVAlloc
